import Mathlib

/-!
Verification of the usb3_pipe repository's remote debug/capture subsystem.

The repository's own Python sources are `netv2.py` (the SoC top-level,
including the optional LiteScopeAnalyzer instantiation) and
`pocs/kc705/test_lfps_analyzer.py` (the host-side debug client).  The
analyzer driver itself (`run`, `wait_done`, `configure_trigger`,
`read_memory`, decode/serialize) lives in the external litex/litescope
libraries and is modelled here from the specification; everything the
client script and the SoC file do directly is embedded from the source.
-/

namespace USB3Pipe

/-- Errors of the debug/capture subsystem, following the spec's taxonomy
(§7): client-side misuse of the address map, capture timeout, and the
bounds fault raised when a capture request exceeds the buffer depth. -/
inductive DriverError where
  | unknownNameError
  | indexOutOfRangeError
  | captureTimeoutError
  | boundsError
  deriving DecidableEq, Repr

/-- A single register write issued to the device: register name and value. -/
structure RegWrite where
  reg : String
  val : Int
  deriving DecidableEq, Repr

/-! ## SoC top-level (from `netv2.py`) -/

/-- Abstraction of the `USB3SoC` object: the list of CSR names registered
via `add_csr`, and the analyzer depth when a `LiteScopeAnalyzer` submodule
is instantiated (`none` otherwise).  From `netv2.py`,
`USB3SoC.__init__`: `add_csr("usb3_core")` always runs; the analyzer block
runs only under `if with_analyzer:` and instantiates
`LiteScopeAnalyzer(analyzer_signals, 4096)` followed by
`add_csr("analyzer")`. -/
structure USB3SoCModel where
  csrNames : List String
  analyzerDepth : Option Nat
  deriving DecidableEq, Repr

/-- `USB3SoC.__init__(self, platform, with_analyzer=False)` from
`netv2.py`, restricted to the CSR/analyzer bookkeeping. -/
def mkUSB3SoC (with_analyzer : Bool) : USB3SoCModel :=
  { csrNames := ["usb3_core"] ++ (if with_analyzer then ["analyzer"] else [])
    analyzerDepth := if with_analyzer then some 4096 else none }

/-- The default value of the `with_analyzer` keyword argument of
`USB3SoC.__init__` in `netv2.py`. -/
def withAnalyzerDefault : Bool := false

/-- The SoC built by `main()` in `netv2.py`: `soc = USB3SoC(platform)`,
passing no `with_analyzer` argument, so the default applies. -/
def mainSoC : USB3SoCModel := mkUSB3SoC withAnalyzerDefault

/-- The analyzer name the debug client passes to
`LiteScopeAnalyzerDriver(wb.regs, "lfps_analyzer", debug=True)` in
`pocs/kc705/test_lfps_analyzer.py`. -/
def driverAnalyzerName : String := "lfps_analyzer"

/-! ## FPGA identifier loop (from `pocs/kc705/test_lfps_analyzer.py`)

```
fpga_id = ""
for i in range(256):
    c = chr(wb.read(wb.bases.identifier_mem + 4*i) & 0xff)
    fpga_id += c
    if c == "\0":
        break
```
The device is modelled as a map from addresses to 32-bit words; characters
are the low byte of each word. -/

/-- The address read at loop iteration `i`: `identifier_mem + 4*i`. -/
def identAddr (base i : Nat) : Nat := base + 4 * i

/-- The character appended at iteration `i`: `wb.read(addr) & 0xff`. -/
def identChar (dev : Nat → Nat) (base i : Nat) : Nat :=
  dev (identAddr base i) % 256

/-- The identifier loop, with `fuel` iterations remaining and `i` the
current loop index: appends `identChar` and breaks right after the first
NUL. -/
def fpgaIdLoop (dev : Nat → Nat) (base : Nat) : Nat → Nat → List Nat
  | 0, _ => []
  | fuel + 1, i =>
      identChar dev base i ::
        (if identChar dev base i = 0 then [] else fpgaIdLoop dev base fuel (i + 1))

/-- The full `fpga_id` read: `for i in range(256)` starting at `i = 0`. -/
def fpgaId (dev : Nat → Nat) (base : Nat) : List Nat :=
  fpgaIdLoop dev base 256 0

/-! ## Capture controller (modelled from the spec)

The analyzer driver is litescope library code, not part of this
repository's sources; the definitions below are modelled from the spec's
contracts in §4.2–§4.4. -/

/-- The capture buffer depth fixed at synthesis time: `netv2.py`
instantiates `LiteScopeAnalyzer(analyzer_signals, 4096, ...)`. -/
def bufferDepth : Nat := 4096

/-- Modelled from the spec: `run(offset, length)` of the Capture
Controller (litescope `LiteScopeAnalyzerDriver.run`, not in src/)
"validates `0 ≤ offset ≤ length ≤ D`, writes offset/length registers,
writes the go control register"; on a bounds fault it "fails before any
device write occurs".  Returns the outcome together with the register
writes actually issued. -/
def run (offset length : Int) : Except DriverError Unit × List RegWrite :=
  if 0 ≤ offset ∧ offset ≤ length ∧ length ≤ (bufferDepth : Int) then
    (Except.ok (), [⟨"offset", offset⟩, ⟨"length", length⟩, ⟨"go", 1⟩])
  else
    (Except.error DriverError.boundsError, [])

/-- An address-map entry for a memory: base address, stride between
elements, and element count (spec §3, AddressMapEntry). -/
structure MemEntry where
  base : Nat
  stride : Nat
  count : Nat
  deriving DecidableEq, Repr

/-- Modelled from the spec: the effective address computed by the memory
accessors of the Remote Register Client (litex `RemoteClient`, not in
src/): "base + index×stride". -/
def effectiveAddr (e : MemEntry) (index : Nat) : Nat :=
  e.base + index * e.stride

/-- Modelled from the spec: `read_memory(name, index)` of the Remote
Register Client (not in src/): bounds-checks `index` against the entry's
element count, failing with `IndexOutOfRangeError`, and otherwise reads
the device word at the effective address. -/
def read_memory (dev : Nat → Nat) (e : MemEntry) (index : Nat) :
    Except DriverError Nat :=
  if index < e.count then Except.ok (dev (effectiveAddr e index))
  else Except.error DriverError.indexOutOfRangeError

/-- Modelled from the spec: `write_memory(name, index, word)` of the
Remote Register Client (not in src/): same bounds check, and on success
the device map is updated at the effective address. -/
def write_memory (dev : Nat → Nat) (e : MemEntry) (index word : Nat) :
    Except DriverError (Nat → Nat) :=
  if index < e.count then
    Except.ok (fun a => if a = effectiveAddr e index then word else dev a)
  else Except.error DriverError.indexOutOfRangeError

/-- The capture state machine of the spec (§4.3). -/
inductive CaptureState where
  | IDLE
  | CONFIGURED
  | ARMED
  | UPLOADING
  | DONE
  | ERROR
  deriving DecidableEq, Repr

/-- Modelled from the spec: the polling loop of `wait_done()` (litescope
driver, not in src/).  `done k` is the done bit observed by the k-th
status-register poll, `fuel` the number of polls left before the timeout;
on timeout the state becomes ERROR with `CaptureTimeoutError`, on success
UPLOADING. -/
def wait_done_loop (done : Nat → Bool) : Nat → Nat →
    Except DriverError Unit × CaptureState
  | 0, _ => (Except.error DriverError.captureTimeoutError, CaptureState.ERROR)
  | fuel + 1, k =>
      if done k then (Except.ok (), CaptureState.UPLOADING)
      else wait_done_loop done fuel (k + 1)

/-- Modelled from the spec: `wait_done()` with a caller-supplied timeout,
expressed as the number of bounded-interval polls. -/
def wait_done (done : Nat → Bool) (timeoutPolls : Nat) :
    Except DriverError Unit × CaptureState :=
  wait_done_loop done timeoutPolls 0

/-! ## Signal layout, trigger configuration and trace decoding
(modelled from the spec, §3, §4.3, §4.4) -/

/-- One entry of a `SignalLayout`: signal name and bit width; capture
words pack the entries in declared order, so each entry's bit offset is
the sum of the widths before it (spec §3). -/
structure LayoutEntry where
  name : String
  width : Nat
  deriving DecidableEq, Repr

/-- The entries of a layout annotated with their bit offsets, packing in
declared order starting from bit `off`: name, bit offset, width. -/
def layoutOffsets : List LayoutEntry → Nat → List (String × Nat × Nat)
  | [], _ => []
  | e :: es, off => (e.name, off, e.width) :: layoutOffsets es (off + e.width)

/-- Looks a signal name up in the layout, returning its bit offset and
width. -/
def findSignal (layout : List LayoutEntry) (n : String) : Option (Nat × Nat) :=
  (layoutOffsets layout 0).lookup n

/-- Modelled from the spec: `configure_trigger(condition)` of the Capture
Controller (litescope driver, not in src/): "for every (signal, value)
pair, resolves the signal's bit position/width from SignalLayout and
writes mask/value register pairs; an empty condition writes an
all-don't-care mask"; an unknown signal name "fails with
`UnknownNameError` before any register write is issued".  The accumulated
trigger mask sets the bits the condition cares about; the trigger value
places each required literal at its bit offset.  Returns the outcome
together with the register writes actually issued. -/
def configure_trigger (layout : List LayoutEntry) (cond : List (String × Nat)) :
    Except DriverError Unit × List RegWrite :=
  if cond.all (fun p => (findSignal layout p.1).isSome) then
    (Except.ok (),
      (cond.map (fun p =>
        match findSignal layout p.1 with
        | some (off, w) => [RegWrite.mk "trigger_mask" ((2 ^ w - 1) * 2 ^ off),
                            RegWrite.mk "trigger_value" (p.2 % 2 ^ w * 2 ^ off)]
        | none => [])).flatten ++
      (if cond.isEmpty then [RegWrite.mk "trigger_mask" 0] else []))
  else
    (Except.error DriverError.unknownNameError, [])

/-- Extracts the `width`-bit slice of a raw sample word starting at bit
`off`. -/
def sliceWord (word off width : Nat) : Nat :=
  word / 2 ^ off % 2 ^ width

/-- The bit-slices of one raw word for the given layout entries, the
first entry sitting at bit `off`, in declared order. -/
def decodeWord : List LayoutEntry → Nat → Nat → List Nat
  | [], _, _ => []
  | e :: es, word, off =>
      sliceWord word off e.width :: decodeWord es word (off + e.width)

/-- Modelled from the spec: `decode(trace, layout)` of the Trace
Serializer (litescope dump machinery, not in src/): "for each raw word,
for each SignalLayout entry in declared order, extracts its bit-slice and
appends the value to that signal's series"; returns the ordered per-signal
series, a pure function of the trace and the layout. -/
def decode (trace : List Nat) (layout : List LayoutEntry) :
    List (String × List Nat) :=
  (layoutOffsets layout 0).map
    (fun s => (s.1, trace.map (fun word => sliceWord word s.2.1 s.2.2)))

/-- Packs one value per layout entry into a raw sample word, the first
entry at bit `off` (the encoding direction of the spec's round-trip
property, §8). -/
def encodeWord : List LayoutEntry → List Nat → Nat → Nat
  | [], _, _ => 0
  | _ :: _, [], _ => 0
  | e :: es, v :: vs, off => v * 2 ^ off + encodeWord es vs (off + e.width)

/-- Every value is in range for its layout entry's width. -/
def valuesInRange : List LayoutEntry → List Nat → Bool
  | [], [] => true
  | e :: es, v :: vs => decide (v < 2 ^ e.width) && valuesInRange es vs
  | _, _ => false

/-! ## Capture-enable sequence of the client script
(from `pocs/kc705/test_lfps_analyzer.py`)

```
wb.regs.gtx_rx_polarity.write(0)
wb.regs.gtx_tx_enable.write(1)
while (wb.regs.gtx_tx_ready.read() == 0):
    pass
wb.regs.gtx_rx_enable.write(1)
while (wb.regs.gtx_rx_ready.read() == 0):
    pass
# analyzer configuration follows
```
The script is modelled as a program counter advancing one bus operation
per step; `tx t` / `rx t` are the values the device returns for reads of
`gtx_tx_ready` / `gtx_rx_ready` issued at global step `t`. -/

/-- Program counter of the capture-enable sequence: each constructor is
the next statement the script executes. -/
inductive ScriptPC where
  | writeRxPolarity
  | writeTxEnable
  | waitTxReady
  | writeRxEnable
  | waitRxReady
  | analyzerConfig
  deriving DecidableEq, Repr

/-- One step of the script at global step `t`: the two `while` loops spin
in place while their ready register reads zero. -/
def scriptStep (tx rx : Nat → Nat) (t : Nat) : ScriptPC → ScriptPC
  | ScriptPC.writeRxPolarity => ScriptPC.writeTxEnable
  | ScriptPC.writeTxEnable => ScriptPC.waitTxReady
  | ScriptPC.waitTxReady =>
      if tx t = 0 then ScriptPC.waitTxReady else ScriptPC.writeRxEnable
  | ScriptPC.writeRxEnable => ScriptPC.waitRxReady
  | ScriptPC.waitRxReady =>
      if rx t = 0 then ScriptPC.waitRxReady else ScriptPC.analyzerConfig
  | ScriptPC.analyzerConfig => ScriptPC.analyzerConfig

/-- The script's program counter after `n` steps, starting at the
`gtx_rx_polarity` write. -/
def scriptRun (tx rx : Nat → Nat) : Nat → ScriptPC
  | 0 => ScriptPC.writeRxPolarity
  | n + 1 => scriptStep tx rx n (scriptRun tx rx n)

/-! ## Theorems -/

/-- Claim C10: `USB3SoC` instantiates the LiteScopeAnalyzer (depth 4096,
CSR name "analyzer") only when `with_analyzer` is true; `main()` builds
`USB3SoC(platform)` with the default `with_analyzer=False`, so the SoC
built by main contains no analyzer, while the debug client constructs its
driver expecting an analyzer named "lfps_analyzer". -/
theorem usb3soc_analyzer_instantiation :
    (mkUSB3SoC true).analyzerDepth = some 4096 ∧
    "analyzer" ∈ (mkUSB3SoC true).csrNames ∧
    (mkUSB3SoC false).analyzerDepth = none ∧
    withAnalyzerDefault = false ∧
    mainSoC.analyzerDepth = none ∧
    driverAnalyzerName = "lfps_analyzer" := by
  refine ⟨rfl, ?_, rfl, rfl, rfl, rfl⟩
  simp [mkUSB3SoC]

/-- Claim C1: `run(offset, length)` succeeds exactly when
`0 ≤ offset ≤ length ≤ D` with `D = 4096` as instantiated; otherwise it
fails with no device register write issued, and in particular the client's
call `run(offset=8192, length=32468)` fails with no write. -/
theorem run_validates_bounds :
    (∀ offset length : Int,
        (run offset length).1 = Except.ok () ↔
          0 ≤ offset ∧ offset ≤ length ∧ length ≤ (bufferDepth : Int)) ∧
    (∀ offset length : Int,
        ¬(0 ≤ offset ∧ offset ≤ length ∧ length ≤ (bufferDepth : Int)) →
        run offset length = (Except.error DriverError.boundsError, [])) ∧
    run 8192 32468 = (Except.error DriverError.boundsError, []) := by
  refine ⟨?_, ?_, ?_⟩
  · intro offset length
    unfold run
    by_cases hc : 0 ≤ offset ∧ offset ≤ length ∧ length ≤ (bufferDepth : Int)
    · rw [if_pos hc]
      simp [hc]
    · rw [if_neg hc]
      simp [hc]
  · intro offset length hc
    unfold run
    rw [if_neg hc]
  · unfold run
    rw [if_neg (by decide)]

/-- Claim C1 witness: a concrete invalid request (offset exceeding
length) fails with no device write. -/
theorem run_validates_bounds_witness :
    run 100 50 = (Except.error DriverError.boundsError, []) :=
  run_validates_bounds.2.1 100 50 (by decide)

/-- Claim C2: `read_memory`/`write_memory` fail with
`IndexOutOfRangeError` when `index ≥ count`, accept index 0 and
index `count − 1`, compute the effective address as
base + index×stride for accepted indices, and with stride 4 the effective
address coincides with the client's identifier-memory addresses
`identifier_mem + 4*i`. -/
theorem memory_access_bounds (dev : Nat → Nat) (e : MemEntry)
    (index word : Nat) :
    (e.count ≤ index →
        read_memory dev e index = Except.error DriverError.indexOutOfRangeError ∧
        write_memory dev e index word =
          Except.error DriverError.indexOutOfRangeError) ∧
    (0 < e.count →
        read_memory dev e 0 = Except.ok (dev (effectiveAddr e 0)) ∧
        read_memory dev e (e.count - 1) =
          Except.ok (dev (effectiveAddr e (e.count - 1))) ∧
        (∃ d, write_memory dev e 0 word = Except.ok d) ∧
        (∃ d, write_memory dev e (e.count - 1) word = Except.ok d)) ∧
    (index < e.count →
        read_memory dev e index = Except.ok (dev (e.base + index * e.stride))) ∧
    (∀ base i : Nat, effectiveAddr ⟨base, 4, 256⟩ i = identAddr base i) := by
  refine ⟨?_, ?_, ?_, ?_⟩
  · intro h
    constructor
    · unfold read_memory
      rw [if_neg (by omega)]
    · unfold write_memory
      rw [if_neg (by omega)]
  · intro h
    refine ⟨?_, ?_, ?_, ?_⟩
    · unfold read_memory
      rw [if_pos h]
    · unfold read_memory
      rw [if_pos (by omega)]
    · unfold write_memory
      rw [if_pos h]
      exact ⟨_, rfl⟩
    · unfold write_memory
      rw [if_pos (by omega)]
      exact ⟨_, rfl⟩
  · intro h
    unfold read_memory
    rw [if_pos h]
    rfl
  · intro base i
    unfold effectiveAddr identAddr
    simp [Nat.mul_comm]

/-- Claim C2 witness: a concrete memory entry with 256 elements and
stride 4, exercised out of bounds, at both accepted boundary indices, and
at an accepted interior index. -/
theorem memory_access_bounds_witness :
    read_memory (fun a => a) ⟨64, 4, 256⟩ 256 =
      Except.error DriverError.indexOutOfRangeError ∧
    read_memory (fun a => a) ⟨64, 4, 256⟩ 0 = Except.ok 64 ∧
    read_memory (fun a => a) ⟨64, 4, 256⟩ 255 = Except.ok (64 + 255 * 4) ∧
    read_memory (fun a => a) ⟨64, 4, 256⟩ 7 = Except.ok (64 + 7 * 4) := by
  refine ⟨?_, ?_, ?_, ?_⟩
  · exact (memory_access_bounds (fun a => a) ⟨64, 4, 256⟩ 256 0).1 (by decide) |>.1
  · exact (memory_access_bounds (fun a => a) ⟨64, 4, 256⟩ 0 0).2.1 (by decide) |>.1
  · exact (memory_access_bounds (fun a => a) ⟨64, 4, 256⟩ 255 0).2.2.1 (by decide)
  · exact (memory_access_bounds (fun a => a) ⟨64, 4, 256⟩ 7 0).2.2.1 (by decide)

/-- Claim C5: `decode` is a pure function of its two inputs: identical
trace and layout always yield identical per-signal series, with no
dependence on device or ambient state. -/
theorem decode_deterministic (trace trace' : List Nat)
    (layout layout' : List LayoutEntry)
    (ht : trace = trace') (hl : layout = layout') :
    decode trace layout = decode trace' layout' := by
  subst ht
  subst hl
  rfl

/-- Claim C5 witness: two invocations on a concrete trace and layout
agree. -/
theorem decode_deterministic_witness :
    decode [5, 3] [⟨"idle", 1⟩, ⟨"polling", 1⟩] =
      decode [5, 3] [⟨"idle", 1⟩, ⟨"polling", 1⟩] :=
  decode_deterministic [5, 3] [5, 3] [⟨"idle", 1⟩, ⟨"polling", 1⟩]
    [⟨"idle", 1⟩, ⟨"polling", 1⟩] rfl rfl

/-- The polling loop only ever ends in ERROR (timeout) or UPLOADING
(done bit seen). -/
theorem wait_done_loop_state (done : Nat → Bool) :
    ∀ fuel start, (wait_done_loop done fuel start).2 = CaptureState.ERROR ∨
      (wait_done_loop done fuel start).2 = CaptureState.UPLOADING := by
  intro fuel
  induction fuel with
  | zero => intro start; exact Or.inl rfl
  | succ fuel ih =>
      intro start
      unfold wait_done_loop
      by_cases h : done start = true
      · rw [if_pos h]
        exact Or.inr rfl
      · rw [if_neg h]
        exact ih (start + 1)

/-- If the done bit stays low at every poll the loop will actually make,
the loop times out into ERROR with `CaptureTimeoutError` — whatever the
done bit would have done after the window. -/
theorem wait_done_loop_timeout (done : Nat → Bool) :
    ∀ fuel start, (∀ k, k < fuel → done (start + k) = false) →
      wait_done_loop done fuel start =
        (Except.error DriverError.captureTimeoutError, CaptureState.ERROR) := by
  intro fuel
  induction fuel with
  | zero => intro start _; rfl
  | succ fuel ih =>
      intro start h
      unfold wait_done_loop
      rw [if_neg (by simp [show done start = false by simpa using h 0 (by omega)])]
      refine ih (start + 1) ?_
      intro k hk
      have heq : start + 1 + k = start + (k + 1) := by omega
      rw [heq]
      exact h (k + 1) (by omega)

/-- If the done bit rises within the remaining polls, the loop succeeds
into UPLOADING. -/
theorem wait_done_loop_success (done : Nat → Bool) :
    ∀ fuel start k, k < fuel → done (start + k) = true →
      wait_done_loop done fuel start = (Except.ok (), CaptureState.UPLOADING) := by
  intro fuel
  induction fuel with
  | zero => intro start k hk _; omega
  | succ fuel ih =>
      intro start k hk hdone
      unfold wait_done_loop
      by_cases h : done start = true
      · rw [if_pos h]
      · rw [if_neg h]
        match k with
        | 0 => simp at hdone; exact absurd hdone h
        | k + 1 =>
            refine ih (start + 1) k (by omega) ?_
            have : start + 1 + k = start + (k + 1) := by omega
            rw [this]
            exact hdone

/-- Claim C3: `wait_done` polls the status register; if the done bit is
never set within the caller-supplied timeout window it times out with
`CaptureTimeoutError` in state ERROR (which is distinct from DONE, and no
state is left ARMED), regardless of what the done bit does after the
window; if the done bit is set within the timeout it transitions to
UPLOADING. -/
theorem wait_done_behavior (done : Nat → Bool) (timeoutPolls : Nat) :
    ((∀ k, k < timeoutPolls → done k = false) →
        wait_done done timeoutPolls =
          (Except.error DriverError.captureTimeoutError, CaptureState.ERROR)) ∧
    ((∃ k, k < timeoutPolls ∧ done k = true) →
        wait_done done timeoutPolls = (Except.ok (), CaptureState.UPLOADING)) ∧
    (wait_done done timeoutPolls).2 ≠ CaptureState.ARMED ∧
    CaptureState.ERROR ≠ CaptureState.DONE := by
  refine ⟨?_, ?_, ?_, by decide⟩
  · intro hnever
    refine wait_done_loop_timeout done timeoutPolls 0 ?_
    intro k hk
    simpa using hnever k hk
  · rintro ⟨k, hk, hdone⟩
    exact wait_done_loop_success done timeoutPolls 0 k hk (by simpa using hdone)
  · rcases wait_done_loop_state done timeoutPolls 0 with h | h <;>
      · unfold wait_done
        rw [h]
        decide

/-- Claim C3 witness: a device whose done bit rises only at poll index 3,
just past a three-poll window, still times out into ERROR with
`CaptureTimeoutError`; a device whose done bit rises at poll 2 makes five
polls succeed into UPLOADING. -/
theorem wait_done_behavior_witness :
    wait_done (fun k => k == 3) 3 =
      (Except.error DriverError.captureTimeoutError, CaptureState.ERROR) ∧
    wait_done (fun k => k == 2) 5 = (Except.ok (), CaptureState.UPLOADING) :=
  ⟨(wait_done_behavior (fun k => k == 3) 3).1 (by decide),
   (wait_done_behavior (fun k => k == 2) 5).2.1 ⟨2, by omega, by decide⟩⟩

/-- Claim C4: a trigger condition containing a signal name absent from
the layout fails with `UnknownNameError` and issues no register write, so
no partial trigger configuration reaches the device. -/
theorem configure_trigger_unknown_name (layout : List LayoutEntry)
    (cond : List (String × Nat))
    (h : ∃ p ∈ cond, findSignal layout p.1 = none) :
    configure_trigger layout cond =
      (Except.error DriverError.unknownNameError, []) := by
  obtain ⟨p, hp, hnone⟩ := h
  unfold configure_trigger
  rw [if_neg]
  intro hall
  rw [List.all_eq_true] at hall
  have := hall p hp
  rw [hnone] at this
  simp at this

/-- Claim C4 witness: a condition naming the unknown signal "bogus"
against a concrete two-signal layout fails with no writes. -/
theorem configure_trigger_unknown_name_witness :
    configure_trigger [⟨"idle", 1⟩, ⟨"polling", 1⟩] [("bogus", 1)] =
      (Except.error DriverError.unknownNameError, []) :=
  configure_trigger_unknown_name [⟨"idle", 1⟩, ⟨"polling", 1⟩] [("bogus", 1)]
    ⟨("bogus", 1), by simp, by decide⟩

/-- Claim C7: an empty trigger condition writes an all-don't-care mask
(free-running capture); for a fully resolvable condition,
`configure_trigger` succeeds and, for each (signal, value) pair, writes
the mask/value register pair built from the signal's bit offset and width
in the layout. -/
theorem configure_trigger_mask_value (layout : List LayoutEntry)
    (cond : List (String × Nat)) (p : String × Nat) (off w : Nat)
    (hall : ∀ q ∈ cond, (findSignal layout q.1).isSome = true)
    (hp : p ∈ cond) (hfind : findSignal layout p.1 = some (off, w)) :
    configure_trigger layout [] = (Except.ok (), [⟨"trigger_mask", 0⟩]) ∧
    (configure_trigger layout cond).1 = Except.ok () ∧
    RegWrite.mk "trigger_mask" ((2 ^ w - 1) * 2 ^ off) ∈
      (configure_trigger layout cond).2 ∧
    RegWrite.mk "trigger_value" (p.2 % 2 ^ w * 2 ^ off) ∈
      (configure_trigger layout cond).2 := by
  have hcond : cond.all (fun q => (findSignal layout q.1).isSome) = true := by
    rw [List.all_eq_true]
    exact hall
  refine ⟨by rfl, ?_, ?_, ?_⟩
  · unfold configure_trigger
    rw [if_pos hcond]
  · unfold configure_trigger
    rw [if_pos hcond]
    simp only [List.mem_append, List.mem_flatten]
    refine Or.inl ⟨_, List.mem_map.mpr ⟨p, hp, rfl⟩, ?_⟩
    rw [hfind]
    simp
  · unfold configure_trigger
    rw [if_pos hcond]
    simp only [List.mem_append, List.mem_flatten]
    refine Or.inl ⟨_, List.mem_map.mpr ⟨p, hp, rfl⟩, ?_⟩
    rw [hfind]
    simp

/-- Claim C7 witness: against the concrete layout idle(1 bit at offset 0),
polling(1 bit at offset 1), the condition polling = 1 produces mask 2 and
value 2, and the empty condition produces the all-don't-care mask. -/
theorem configure_trigger_mask_value_witness :
    configure_trigger [⟨"idle", 1⟩, ⟨"polling", 1⟩] [] =
      (Except.ok (), [⟨"trigger_mask", 0⟩]) ∧
    RegWrite.mk "trigger_mask" ((2 ^ 1 - 1) * 2 ^ 1) ∈
      (configure_trigger [⟨"idle", 1⟩, ⟨"polling", 1⟩] [("polling", 1)]).2 ∧
    RegWrite.mk "trigger_value" (1 % 2 ^ 1 * 2 ^ 1) ∈
      (configure_trigger [⟨"idle", 1⟩, ⟨"polling", 1⟩] [("polling", 1)]).2 := by
  have h := configure_trigger_mask_value [⟨"idle", 1⟩, ⟨"polling", 1⟩]
    [("polling", 1)] ("polling", 1) 1 1 (by decide) (by simp) (by decide)
  exact ⟨h.1, h.2.2.1, h.2.2.2⟩

/-- The identifier loop runs at most `fuel` iterations. -/
theorem fpgaIdLoop_length_le (dev : Nat → Nat) (base : Nat) :
    ∀ fuel i, (fpgaIdLoop dev base fuel i).length ≤ fuel := by
  intro fuel
  induction fuel with
  | zero => intro i; simp [fpgaIdLoop]
  | succ fuel ih =>
      intro i
      unfold fpgaIdLoop
      by_cases h : identChar dev base i = 0
      · rw [if_pos h]
        simp
      · rw [if_neg h]
        simpa using ih (i + 1)

/-- Each character collected by the identifier loop is the one read at
that iteration's address. -/
theorem fpgaIdLoop_getD (dev : Nat → Nat) (base : Nat) :
    ∀ fuel i j, j < (fpgaIdLoop dev base fuel i).length →
      (fpgaIdLoop dev base fuel i).getD j 0 = identChar dev base (i + j) := by
  intro fuel
  induction fuel with
  | zero => intro i j hj; simp [fpgaIdLoop] at hj
  | succ fuel ih =>
      intro i j hj
      unfold fpgaIdLoop at hj ⊢
      by_cases h : identChar dev base i = 0
      · rw [if_pos h] at hj ⊢
        simp at hj
        subst hj
        simp
      · rw [if_neg h] at hj ⊢
        match j with
        | 0 => simp
        | j + 1 =>
            simp only [List.getD_cons_succ]
            rw [ih (i + 1) j (by simpa using hj)]
            congr 1
            omega

/-- Every character of the identifier except possibly the last is
non-NUL: the loop breaks right after the first NUL. -/
theorem fpgaIdLoop_prefix_ne_zero (dev : Nat → Nat) (base : Nat) :
    ∀ fuel i j, j + 1 < (fpgaIdLoop dev base fuel i).length →
      (fpgaIdLoop dev base fuel i).getD j 0 ≠ 0 := by
  intro fuel
  induction fuel with
  | zero => intro i j hj; simp [fpgaIdLoop] at hj
  | succ fuel ih =>
      intro i j hj
      unfold fpgaIdLoop at hj ⊢
      by_cases h : identChar dev base i = 0
      · rw [if_pos h] at hj
        simp at hj
      · rw [if_neg h] at hj ⊢
        match j with
        | 0 => simpa using h
        | j + 1 =>
            simp only [List.getD_cons_succ]
            exact ih (i + 1) j (by simpa using hj)

/-- The identifier loop either stops on a NUL (its last character) or
exhausts its iteration budget. -/
theorem fpgaIdLoop_last_or_full (dev : Nat → Nat) (base : Nat) :
    ∀ fuel i, (fpgaIdLoop dev base fuel i).getLast? = some 0 ∨
      (fpgaIdLoop dev base fuel i).length = fuel := by
  intro fuel
  induction fuel with
  | zero => intro i; exact Or.inr rfl
  | succ fuel ih =>
      intro i
      unfold fpgaIdLoop
      by_cases h : identChar dev base i = 0
      · rw [if_pos h]
        left
        simp [h]
      · rw [if_neg h]
        rcases ih (i + 1) with hl | hl
        · left
          cases hrest : fpgaIdLoop dev base fuel (i + 1) with
          | nil => rw [hrest] at hl; simp at hl
          | cons a l =>
              rw [hrest] at hl
              rw [List.getLast?_cons_cons]
              exact hl
        · right
          simpa using hl

/-- Claim C8: the FPGA-identifier loop performs at most 256 reads, at
addresses `identifier_mem + 4*i`, each appended character being the low
byte of the word read; it stops immediately after the first NUL, so the
result either ends with NUL or has exactly 256 characters. -/
theorem fpga_id_loop_spec (dev : Nat → Nat) (base : Nat) :
    (fpgaId dev base).length ≤ 256 ∧
    (∀ j, j < (fpgaId dev base).length →
        (fpgaId dev base).getD j 0 = dev (base + 4 * j) % 256) ∧
    (∀ j, j + 1 < (fpgaId dev base).length → (fpgaId dev base).getD j 0 ≠ 0) ∧
    ((fpgaId dev base).getLast? = some 0 ∨ (fpgaId dev base).length = 256) := by
  refine ⟨fpgaIdLoop_length_le dev base 256 0, ?_,
    fun j => fpgaIdLoop_prefix_ne_zero dev base 256 0 j,
    fpgaIdLoop_last_or_full dev base 256 0⟩
  intro j hj
  have h := fpgaIdLoop_getD dev base 256 0 j hj
  simpa [identChar, identAddr] using h

/-- Claim C8 witness: a concrete device whose identifier memory holds
two letters then a NUL at word addresses 1000, 1004, 1008. -/
theorem fpga_id_loop_spec_witness :
    (fpgaId (fun a => if a = 1008 then 0 else 65) 1000).length ≤ 256 ∧
    (fpgaId (fun a => if a = 1008 then 0 else 65) 1000).getD 0 0 ≠ 0 ∧
    ((fpgaId (fun a => if a = 1008 then 0 else 65) 1000).getLast? = some 0 ∨
      (fpgaId (fun a => if a = 1008 then 0 else 65) 1000).length = 256) :=
  ⟨(fpga_id_loop_spec (fun a => if a = 1008 then 0 else 65) 1000).1,
   (fpga_id_loop_spec (fun a => if a = 1008 then 0 else 65) 1000).2.2.1 0
     (by decide),
   (fpga_id_loop_spec (fun a => if a = 1008 then 0 else 65) 1000).2.2.2⟩

/-- Claim C9: the script reaches the `gtx_rx_enable = 1` write only after
some read of `gtx_tx_ready` returned nonzero, and reaches the analyzer
configuration only after some read of `gtx_rx_ready` returned nonzero;
both waits are unbounded busy-spins, so a ready register stuck at zero
pins the script in the corresponding loop forever. -/
theorem script_wait_order (tx rx : Nat → Nat) :
    (∀ n, scriptRun tx rx n = ScriptPC.writeRxEnable →
        ∃ k, k < n ∧ scriptRun tx rx k = ScriptPC.waitTxReady ∧ tx k ≠ 0) ∧
    (∀ n, scriptRun tx rx n = ScriptPC.analyzerConfig →
        ∃ k, k < n ∧ scriptRun tx rx k = ScriptPC.waitRxReady ∧ rx k ≠ 0) ∧
    ((∀ t, tx t = 0) → ∀ n, 2 ≤ n → scriptRun tx rx n = ScriptPC.waitTxReady) ∧
    ((∀ t, rx t = 0) → ∀ n, scriptRun tx rx n ≠ ScriptPC.analyzerConfig) := by
  refine ⟨?_, ?_, ?_, ?_⟩
  · intro n h
    cases n with
    | zero => simp [scriptRun] at h
    | succ m =>
        simp only [scriptRun] at h
        cases hm : scriptRun tx rx m with
        | writeRxPolarity => rw [hm] at h; exact absurd h (by simp [scriptStep])
        | writeTxEnable => rw [hm] at h; exact absurd h (by simp [scriptStep])
        | waitTxReady =>
            by_cases htx : tx m = 0
            · rw [hm] at h
              simp only [scriptStep] at h
              rw [if_pos htx] at h
              exact absurd h (by simp)
            · exact ⟨m, Nat.lt_succ_self m, hm, htx⟩
        | writeRxEnable => rw [hm] at h; exact absurd h (by simp [scriptStep])
        | waitRxReady =>
            rw [hm] at h
            simp only [scriptStep] at h
            by_cases hrx : rx m = 0
            · rw [if_pos hrx] at h
              exact absurd h (by simp)
            · rw [if_neg hrx] at h
              exact absurd h (by simp)
        | analyzerConfig => rw [hm] at h; exact absurd h (by simp [scriptStep])
  · intro n
    induction n with
    | zero => intro h; simp [scriptRun] at h
    | succ m ih =>
        intro h
        simp only [scriptRun] at h
        cases hm : scriptRun tx rx m with
        | writeRxPolarity => rw [hm] at h; exact absurd h (by simp [scriptStep])
        | writeTxEnable => rw [hm] at h; exact absurd h (by simp [scriptStep])
        | waitTxReady =>
            rw [hm] at h
            simp only [scriptStep] at h
            by_cases htx : tx m = 0
            · rw [if_pos htx] at h
              exact absurd h (by simp)
            · rw [if_neg htx] at h
              exact absurd h (by simp)
        | writeRxEnable => rw [hm] at h; exact absurd h (by simp [scriptStep])
        | waitRxReady =>
            by_cases hrx : rx m = 0
            · rw [hm] at h
              simp only [scriptStep] at h
              rw [if_pos hrx] at h
              exact absurd h (by simp)
            · exact ⟨m, Nat.lt_succ_self m, hm, hrx⟩
        | analyzerConfig =>
            obtain ⟨k, hk, h1, h2⟩ := ih hm
            exact ⟨k, by omega, h1, h2⟩
  · intro htx n hn
    induction n with
    | zero => omega
    | succ m ih =>
        by_cases hm2 : 2 ≤ m
        · have h := ih hm2
          simp only [scriptRun]
          rw [h]
          simp only [scriptStep]
          rw [if_pos (htx m)]
        · have hm1 : m = 1 := by omega
          subst hm1
          rfl
  · intro hrx n
    induction n with
    | zero => simp [scriptRun]
    | succ m ih =>
        simp only [scriptRun]
        cases hm : scriptRun tx rx m with
        | writeRxPolarity => simp [scriptStep]
        | writeTxEnable => simp [scriptStep]
        | waitTxReady =>
            simp only [scriptStep]
            split <;> simp
        | writeRxEnable => simp [scriptStep]
        | waitRxReady =>
            simp only [scriptStep]
            rw [if_pos (hrx m)]
            simp
        | analyzerConfig => exact absurd hm ih

/-- Claim C9 witness: with both ready registers stuck at zero, after ten
steps the script is still spinning on `gtx_tx_ready` and has not reached
the analyzer configuration. -/
theorem script_wait_order_witness :
    scriptRun (fun _ => 0) (fun _ => 0) 10 = ScriptPC.waitTxReady ∧
    scriptRun (fun _ => 0) (fun _ => 0) 10 ≠ ScriptPC.analyzerConfig :=
  ⟨(script_wait_order (fun _ => 0) (fun _ => 0)).2.2.1 (fun _ => rfl) 10
      (by omega),
   (script_wait_order (fun _ => 0) (fun _ => 0)).2.2.2 (fun _ => rfl) 10⟩

/-- `getD` commutes with `map` at in-range indices. -/
theorem getD_map_of_lt {α β : Type} (f : α → β) :
    ∀ (l : List α) (i : Nat), i < l.length →
      ∀ (d : β) (d' : α), (l.map f).getD i d = f (l.getD i d') := by
  intro l
  induction l with
  | nil => intro i hi; simp at hi
  | cons a l ih =>
      intro i hi d d'
      cases i with
      | zero => rfl
      | succ i => simpa using ih i (by simpa using hi) d d'

/-- `getD` at an in-range index returns an element of the list. -/
theorem getD_mem_of_lt {α : Type} :
    ∀ (l : List α) (i : Nat), i < l.length → ∀ d, l.getD i d ∈ l := by
  intro l
  induction l with
  | nil => intro i hi; simp at hi
  | cons a l ih =>
      intro i hi d
      cases i with
      | zero => exact List.mem_cons_self a l
      | succ i => exact List.mem_cons_of_mem a (ih i (by simpa using hi) d)

/-- Annotating a layout with offsets preserves its length. -/
theorem layoutOffsets_length (es : List LayoutEntry) :
    ∀ off, (layoutOffsets es off).length = es.length := by
  induction es with
  | nil => intro off; rfl
  | cons e es ih => intro off; simp [layoutOffsets, ih]

/-- `decodeWord` extracts exactly the bit-slices of the offset-annotated
layout. -/
theorem decodeWord_eq_map (es : List LayoutEntry) :
    ∀ word off, decodeWord es word off =
      (layoutOffsets es off).map (fun s => sliceWord word s.2.1 s.2.2) := by
  induction es with
  | nil => intro word off; rfl
  | cons e es ih => intro word off; simp [decodeWord, layoutOffsets, ih]

/-- An encoding whose first entry sits at bit `off` only occupies bits at
or above `off`. -/
theorem pow_dvd_encodeWord (es : List LayoutEntry) :
    ∀ vs off, 2 ^ off ∣ encodeWord es vs off := by
  induction es with
  | nil => intro vs off; simp [encodeWord]
  | cons e es ih =>
      intro vs off
      cases vs with
      | nil => simp [encodeWord]
      | cons v vs =>
          unfold encodeWord
          exact dvd_add (dvd_mul_left (2 ^ off) v)
            (dvd_trans (pow_dvd_pow 2 (Nat.le_add_right off e.width))
              (ih vs (off + e.width)))

/-- Core round-trip: decoding an encoded word recovers the packed values,
even in the presence of arbitrary lower bits `a` below the first entry's
offset. -/
theorem decodeWord_encodeWord (es : List LayoutEntry) :
    ∀ vs off a, a < 2 ^ off → vs.length = es.length →
      valuesInRange es vs = true →
      decodeWord es (a + encodeWord es vs off) off = vs := by
  induction es with
  | nil =>
      intro vs off a _ hlen _
      cases vs with
      | nil => rfl
      | cons v vs => simp at hlen
  | cons e es ih =>
      intro vs off a ha hlen hrange
      cases vs with
      | nil => simp at hlen
      | cons v vs =>
          simp only [valuesInRange, Bool.and_eq_true, decide_eq_true_eq]
            at hrange
          obtain ⟨hv, hrange⟩ := hrange
          obtain ⟨c, hc⟩ := pow_dvd_encodeWord es vs (off + e.width)
          have hpos : 0 < 2 ^ off := Nat.pos_pow_of_pos off (by omega)
          unfold decodeWord encodeWord
          congr 1
          · unfold sliceWord
            rw [hc]
            have h1 : a + (v * 2 ^ off + 2 ^ (off + e.width) * c)
                = a + 2 ^ off * (v + 2 ^ e.width * c) := by ring
            rw [h1, Nat.add_mul_div_left _ _ hpos, Nat.div_eq_of_lt ha,
              Nat.zero_add, Nat.add_mul_mod_self_left, Nat.mod_eq_of_lt hv]
          · have h2 : a + (v * 2 ^ off + encodeWord es vs (off + e.width))
                = (a + v * 2 ^ off) + encodeWord es vs (off + e.width) := by
              ring
            rw [h2]
            refine ih vs (off + e.width) (a + v * 2 ^ off) ?_
              (by simpa using hlen) hrange
            have h3 : a + v * 2 ^ off < v * 2 ^ off + 2 ^ off := by
              rw [Nat.add_comm a (v * 2 ^ off)]
              exact Nat.add_lt_add_left ha _
            have h4 : v * 2 ^ off + 2 ^ off = (v + 1) * 2 ^ off := by ring
            have h5 : (v + 1) * 2 ^ off ≤ 2 ^ e.width * 2 ^ off :=
              Nat.mul_le_mul_right _ (by omega)
            calc a + v * 2 ^ off < (v + 1) * 2 ^ off := by rw [← h4]; exact h3
              _ ≤ 2 ^ e.width * 2 ^ off := h5
              _ = 2 ^ (off + e.width) := by rw [pow_add, Nat.mul_comm]

/-- Every series produced by `decode` has one value per raw trace word. -/
theorem decode_series_length (trace : List Nat) (layout : List LayoutEntry) :
    ∀ p ∈ decode trace layout, p.2.length = trace.length := by
  intro p hp
  unfold decode at hp
  obtain ⟨s, _, rfl⟩ := List.mem_map.mp hp
  simp

/-- Claim C6: encoding per-sample signal values into raw words at the
layout's bit offsets and decoding recovers every original value exactly
(in-range values, arbitrary widths, 1-bit entries included); and every
decoded series has length equal to the trace length. -/
theorem decode_roundtrip (layout : List LayoutEntry) (vss : List (List Nat))
    (hlen : ∀ vs ∈ vss, vs.length = layout.length)
    (hrange : ∀ vs ∈ vss, valuesInRange layout vs = true) :
    (∀ (trace : List Nat), ∀ p ∈ decode trace layout,
        p.2.length = trace.length) ∧
    (∀ j t, j < layout.length → t < vss.length →
        ((decode (vss.map (fun vs => encodeWord layout vs 0)) layout).getD j
            ("", [])).2.getD t 0 = (vss.getD t []).getD j 0) := by
  refine ⟨fun trace => decode_series_length trace layout, ?_⟩
  intro j t hj ht
  have hL : (layoutOffsets layout 0).length = layout.length :=
    layoutOffsets_length layout 0
  unfold decode
  rw [getD_map_of_lt _ (layoutOffsets layout 0) j (by omega) ("", [])
    ("", 0, 0)]
  rw [getD_map_of_lt _ (vss.map (fun vs => encodeWord layout vs 0)) t
    (by simpa using ht) 0 0]
  rw [getD_map_of_lt (fun vs => encodeWord layout vs 0) vss t ht 0 []]
  have hmem : vss.getD t [] ∈ vss := getD_mem_of_lt vss t ht []
  have hdec : decodeWord layout (encodeWord layout (vss.getD t []) 0) 0
      = vss.getD t [] := by
    have h := decodeWord_encodeWord layout (vss.getD t []) 0 0 (by omega)
      (hlen _ hmem) (hrange _ hmem)
    simpa using h
  have hmap : (layoutOffsets layout 0).map
      (fun s => sliceWord (encodeWord layout (vss.getD t []) 0) s.2.1 s.2.2)
      = vss.getD t [] := by
    rw [← decodeWord_eq_map]
    exact hdec
  have h := congrArg (fun l => l.getD j 0) hmap
  simp only at h
  rw [getD_map_of_lt _ (layoutOffsets layout 0) j (by omega) 0 ("", 0, 0)]
    at h
  exact h

/-- Claim C6 witness: a layout with two 1-bit signals and one 8-bit
signal; the 8-bit value 171 of the first sample word is recovered at
signal index 2, time 0. -/
theorem decode_roundtrip_witness :
    ((decode ([[1, 0, 171], [0, 1, 5]].map
        (fun vs => encodeWord [⟨"idle", 1⟩, ⟨"polling", 1⟩, ⟨"data", 8⟩] vs 0))
        [⟨"idle", 1⟩, ⟨"polling", 1⟩, ⟨"data", 8⟩]).getD 2 ("", [])).2.getD 0 0
      = ([[1, 0, 171], [0, 1, 5]].getD 0 []).getD 2 0 :=
  (decode_roundtrip [⟨"idle", 1⟩, ⟨"polling", 1⟩, ⟨"data", 8⟩]
    [[1, 0, 171], [0, 1, 5]] (by decide) (by decide)).2 2 0 (by decide)
    (by decide)

end USB3Pipe
